import Mathlib

/-!
Verification development for the `chart` repository: incremental OHLCV
ingestion and the hammer-after-decline pattern detector, plus the
frontend's moving-average and sample-data helpers.

Prices are modelled as exact rationals (`ℚ`), trading dates as natural
day numbers, and SQL tables as lists of rows with explicit unique keys.
-/

/-- One daily OHLCV bar for a symbol (table `stocks` in
`src/mysql/init.sql`: symbol, date, open, high, low, close, volume).
The `open` column is rendered `open_` because `open` is a Lean keyword. -/
structure Bar where
  date : ℕ
  open_ : ℚ
  high : ℚ
  low : ℚ
  close : ℚ
  volume : ℤ
deriving DecidableEq, Repr, Inhabited

/-- Detector thresholds (spec §4.2): minimum decline-run length,
lower-shadow percentage floor, upper-shadow percentage ceiling. -/
structure DetectorConfig where
  minDeclineDays : ℕ
  lowerShadowMin : ℚ
  upperShadowMax : ℚ
deriving DecidableEq, Repr

/-- Default thresholds: decline run ≥ 4 days, lower shadow ≥ 50%,
upper shadow ≤ 30% (spec §4.2 and the batch script's help text). -/
def defaultConfig : DetectorConfig :=
  { minDeclineDays := 4, lowerShadowMin := 50, upperShadowMax := 30 }

/-- Lower shadow of a bar as a percentage of its range:
(min(open, close) − low) / (high − low) × 100. -/
def lowerShadowPct (b : Bar) : ℚ :=
  (min b.open_ b.close - b.low) / (b.high - b.low) * 100

/-- Upper shadow of a bar as a percentage of its range:
(high − max(open, close)) / (high − low) × 100. -/
def upperShadowPct (b : Bar) : ℚ :=
  (b.high - max b.open_ b.close) / (b.high - b.low) * 100

/-- Body of a bar as a percentage of its range:
|close − open| / (high − low) × 100. -/
def bodyPct (b : Bar) : ℚ :=
  |b.close - b.open_| / (b.high - b.low) * 100

/-- Modelled from the spec: the hammer predicate of
`data_collector/hammer_signal_detector.py`, which is not in the
repository snapshot (only its shell wrapper, help text and the
`signal_detections` schema are). Spec §4.2: a candidate day is a hammer
iff close > low, close − low ≥ high − open, lower shadow ≥ 50% of the
range, upper shadow ≤ 30% of the range, and the range high − low is
positive (a zero-range bar is ineligible). -/
def isHammer (cfg : DetectorConfig) (b : Bar) : Bool :=
  decide (b.high - b.low > 0) &&
  decide (b.close > b.low) &&
  decide (b.close - b.low ≥ b.high - b.open_) &&
  decide (lowerShadowPct b ≥ cfg.lowerShadowMin) &&
  decide (upperShadowPct b ≤ cfg.upperShadowMax)

/-- Modelled from the spec: length of the strictly-decreasing close run
ending at index `k` of `closes`, walking backward; a tie or rise stops
the walk (spec §4.2). `declineLen closes k` counts the consecutive
indices `j ≤ k` with `closes[j] < closes[j−1]`. -/
def declineLen (closes : List ℚ) : ℕ → ℕ
  | 0 => 0
  | k + 1 =>
    if closes.getD (k + 1) 0 < closes.getD k 0 then declineLen closes k + 1 else 0

/-- One detected signal (table `signal_detections`): uniquely keyed by
(symbol, signal_date, signal_type). -/
structure Signal where
  symbol : String
  signal_date : ℕ
  signal_type : String
  decline_days : ℕ
  decline_start_date : ℕ
  total_decline_pct : ℚ
  lower_shadow_pct : ℚ
  upper_shadow_pct : ℚ
deriving DecidableEq, Repr

/-- Modelled from the spec: evaluate candidate index `i` of a symbol's
ascending bar history. A signal is produced iff the bar at `i` is a
hammer and the strictly-decreasing close run ending at `i − 1` has
length ≥ `minDeclineDays`; the signal carries that run length as
`decline_days`, the run's starting date, and the total decline
percentage across the run (spec §4.2). -/
def evalCandidate (sym : String) (bars : List Bar) (cfg : DetectorConfig)
    (i : ℕ) : Option Signal :=
  let b := bars.getD i default
  let closes := bars.map Bar.close
  let run := declineLen closes (i - 1)
  if isHammer cfg b && decide (run ≥ cfg.minDeclineDays) then
    some { symbol := sym
           signal_date := b.date
           signal_type := "hammer_after_decline"
           decline_days := run
           decline_start_date := (bars.getD (i - 1 - run) default).date
           total_decline_pct :=
             (closes.getD (i - 1 - run) 0 - closes.getD (i - 1) 0) /
               closes.getD (i - 1 - run) 0 * 100
           lower_shadow_pct := lowerShadowPct b
           upper_shadow_pct := upperShadowPct b }
  else none

/-- Modelled from the spec: the candidate indices of an `n`-bar history
are the most recent bar and the bar immediately before it
(spec §4.2: "the most recent bar and the bar immediately before it"). -/
def candidateIdxs (n : ℕ) : List ℕ :=
  if n ≥ 2 then [n - 2, n - 1] else if n = 1 then [0] else []

/-- Modelled from the spec: the pattern detector for one symbol — a
pure function of the ascending bar history and the thresholds, emitting
one signal per qualifying candidate day (spec §4.2). -/
def detectSignals (sym : String) (bars : List Bar) (cfg : DetectorConfig) :
    List Signal :=
  (candidateIdxs bars.length).filterMap (evalCandidate sym bars cfg)

/-- Build a bar from explicit prices, with a fixed volume. -/
def mkBar (d : ℕ) (o h l c : ℚ) : Bar :=
  { date := d, open_ := o, high := h, low := l, close := c, volume := 1000 }

/-- A flat bar (open = high = low = close): used to build decline runs
in concrete test histories; never a hammer since its range is zero. -/
def flatBar (d : ℕ) (p : ℚ) : Bar :=
  mkBar d p p p p

/-- `isHammer` unfolded to its five defining conditions. -/
theorem isHammer_eq_true_iff (cfg : DetectorConfig) (b : Bar) :
    isHammer cfg b = true ↔
      b.high - b.low > 0 ∧ b.close > b.low ∧
      b.close - b.low ≥ b.high - b.open_ ∧
      lowerShadowPct b ≥ cfg.lowerShadowMin ∧
      upperShadowPct b ≤ cfg.upperShadowMax := by
  simp [isHammer, and_assoc]

/-- A zero-range (flat) bar is never a hammer. -/
theorem isHammer_flatBar (cfg : DetectorConfig) (d : ℕ) (p : ℚ) :
    isHammer cfg (flatBar d p) = false := by
  rw [Bool.eq_false_iff]
  intro h
  rcases (isHammer_eq_true_iff cfg _).mp h with ⟨hr, _⟩
  simp [flatBar, mkBar] at hr

/-- The spec §8 example bar (open 68, high 76, low 60, close 75) is a
hammer under the default thresholds. -/
theorem isHammer_ex1 (d : ℕ) : isHammer defaultConfig (mkBar d 68 76 60 75) = true := by
  rw [isHammer_eq_true_iff]
  norm_num [mkBar, lowerShadowPct, upperShadowPct, defaultConfig]

/-- The shifted example bar (open 60, high 68, low 52, close 67) is a
hammer under the default thresholds. -/
theorem isHammer_ex2 (d : ℕ) : isHammer defaultConfig (mkBar d 60 68 52 67) = true := by
  rw [isHammer_eq_true_iff]
  norm_num [mkBar, lowerShadowPct, upperShadowPct, defaultConfig]

theorem mkBar_date (d : ℕ) (o h l c : ℚ) : (mkBar d o h l c).date = d := rfl

theorem flatBar_date (d : ℕ) (p : ℚ) : (flatBar d p).date = d := rfl

theorem defaultConfig_minDeclineDays : defaultConfig.minDeclineDays = 4 := rfl

/-- Test history: three strictly-decreasing close steps
(100, 95, 90, 85) followed by the spec §8 hammer bar. -/
def hist5 : List Bar :=
  [flatBar 0 100, flatBar 1 95, flatBar 2 90, flatBar 3 85,
   mkBar 4 68 76 60 75]

/-- Test history: four strictly-decreasing close steps
(100, 95, 90, 85, 80) followed by the spec §8 hammer bar. -/
def hist6 : List Bar :=
  [flatBar 0 100, flatBar 1 95, flatBar 2 90, flatBar 3 85, flatBar 4 80,
   mkBar 5 68 76 60 75]

/-- The unique signal the detector emits on `hist6`. -/
def sig6 : Signal :=
  { symbol := "X", signal_date := 5, signal_type := "hammer_after_decline",
    decline_days := 4, decline_start_date := 0,
    total_decline_pct := (100 - 80) / 100 * 100,
    lower_shadow_pct := lowerShadowPct (mkBar 5 68 76 60 75),
    upper_shadow_pct := upperShadowPct (mkBar 5 68 76 60 75) }

theorem hist5_closes : hist5.map Bar.close = [100, 95, 90, 85, 75] := rfl

theorem hist6_closes : hist6.map Bar.close = [100, 95, 90, 85, 80, 75] := rfl

theorem hist5_run : declineLen [100, 95, 90, 85, 75] 3 = 3 := by decide

theorem hist6_run : declineLen [100, 95, 90, 85, 80, 75] 4 = 4 := by decide

theorem hist5_eval3 : evalCandidate "X" hist5 defaultConfig 3 = none := by
  have hb : hist5[3]? = some (flatBar 3 85) := rfl
  simp [evalCandidate, hb, isHammer_flatBar]

theorem hist5_eval4 : evalCandidate "X" hist5 defaultConfig 4 = none := by
  have hb : hist5[4]? = some (mkBar 4 68 76 60 75) := rfl
  simp [evalCandidate, hb, isHammer_ex1, hist5_closes, hist5_run,
    defaultConfig_minDeclineDays]

theorem hist6_eval4 : evalCandidate "X" hist6 defaultConfig 4 = none := by
  have hb : hist6[4]? = some (flatBar 4 80) := rfl
  simp [evalCandidate, hb, isHammer_flatBar]

theorem hist6_eval5 : evalCandidate "X" hist6 defaultConfig 5 = some sig6 := by
  have hb : hist6[5]? = some (mkBar 5 68 76 60 75) := rfl
  have hb0 : hist6[0]? = some (flatBar 0 100) := rfl
  simp [evalCandidate, hb, hb0, hist6_closes, isHammer_ex1, hist6_run,
    defaultConfig_minDeclineDays, sig6, mkBar_date, flatBar_date]

theorem detect_hist5 : detectSignals "X" hist5 defaultConfig = [] := by
  have hl : hist5.length = 5 := rfl
  simp [detectSignals, hl, candidateIdxs, hist5_eval3, hist5_eval4]

theorem detect_hist6 : detectSignals "X" hist6 defaultConfig = [sig6] := by
  have hl : hist6.length = 6 := rfl
  simp [detectSignals, hl, candidateIdxs, hist6_eval4, hist6_eval5]

/-- Test history: five strictly-decreasing close steps followed by two
consecutive qualifying hammer bars (both candidate days qualify). -/
def hist7 : List Bar :=
  [flatBar 0 100, flatBar 1 95, flatBar 2 90, flatBar 3 85, flatBar 4 80,
   mkBar 5 68 76 60 75, mkBar 6 60 68 52 67]

/-- The signal `hist7` yields on its second-to-latest bar. -/
def sig7a : Signal :=
  { symbol := "X", signal_date := 5, signal_type := "hammer_after_decline",
    decline_days := 4, decline_start_date := 0,
    total_decline_pct := (100 - 80) / 100 * 100,
    lower_shadow_pct := lowerShadowPct (mkBar 5 68 76 60 75),
    upper_shadow_pct := upperShadowPct (mkBar 5 68 76 60 75) }

/-- The signal `hist7` yields on its latest bar. -/
def sig7b : Signal :=
  { symbol := "X", signal_date := 6, signal_type := "hammer_after_decline",
    decline_days := 5, decline_start_date := 0,
    total_decline_pct := (100 - 75) / 100 * 100,
    lower_shadow_pct := lowerShadowPct (mkBar 6 60 68 52 67),
    upper_shadow_pct := upperShadowPct (mkBar 6 60 68 52 67) }

theorem hist7_closes :
    hist7.map Bar.close = [100, 95, 90, 85, 80, 75, 67] := rfl

theorem hist7_run4 : declineLen [100, 95, 90, 85, 80, 75, 67] 4 = 4 := by
  decide

theorem hist7_run5 : declineLen [100, 95, 90, 85, 80, 75, 67] 5 = 5 := by
  decide

theorem hist7_eval5 : evalCandidate "X" hist7 defaultConfig 5 = some sig7a := by
  have hb : hist7[5]? = some (mkBar 5 68 76 60 75) := rfl
  have hb0 : hist7[0]? = some (flatBar 0 100) := rfl
  simp [evalCandidate, hb, hb0, hist7_closes, isHammer_ex1, hist7_run4,
    defaultConfig_minDeclineDays, sig7a, mkBar_date, flatBar_date]

theorem hist7_eval6 : evalCandidate "X" hist7 defaultConfig 6 = some sig7b := by
  have hb : hist7[6]? = some (mkBar 6 60 68 52 67) := rfl
  have hb0 : hist7[0]? = some (flatBar 0 100) := rfl
  simp [evalCandidate, hb, hb0, hist7_closes, isHammer_ex2, hist7_run5,
    defaultConfig_minDeclineDays, sig7b, mkBar_date, flatBar_date]

theorem detect_hist7 :
    detectSignals "X" hist7 defaultConfig = [sig7a, sig7b] := by
  have hl : hist7.length = 7 := rfl
  simp [detectSignals, hl, candidateIdxs, hist7_eval5, hist7_eval6]

theorem defaultConfig_lower : defaultConfig.lowerShadowMin = 50 := rfl

theorem defaultConfig_upper : defaultConfig.upperShadowMax = 30 := rfl

/-- C1: under the default thresholds, a bar is classified as a hammer
iff close > low, close − low ≥ high − open, lower-shadow percentage
≥ 50, upper-shadow percentage ≤ 30, and range = high − low > 0; in
particular a zero-range bar (high = low) is never a hammer, whatever
its open and close. -/
theorem C1_hammer_characterization (b : Bar) :
    (isHammer defaultConfig b = true ↔
      b.close > b.low ∧ b.close - b.low ≥ b.high - b.open_ ∧
      lowerShadowPct b ≥ 50 ∧ upperShadowPct b ≤ 30 ∧
      b.high - b.low > 0) ∧
    (b.high = b.low → isHammer defaultConfig b = false) := by
  constructor
  · rw [isHammer_eq_true_iff, defaultConfig_lower, defaultConfig_upper]
    tauto
  · intro h
    rw [Bool.eq_false_iff]
    intro hh
    rcases (isHammer_eq_true_iff _ _).mp hh with ⟨hr, _⟩
    rw [h] at hr
    simp at hr

/-- Witness for C1 at a concrete zero-range bar. -/
theorem C1_hammer_characterization_witness :
    isHammer defaultConfig (flatBar 0 100) = false :=
  (C1_hammer_characterization (flatBar 0 100)).2 rfl

/-- C2: a candidate day yields a signal iff it is a hammer and the
strictly-decreasing close run before it has length ≥ minDeclineDays,
and the signal's `decline_days` equals that run length; with the
default minimum of 4, three decline steps before a qualifying hammer
yield no signal while four steps yield exactly one signal with
`decline_days` = 4. -/
theorem C2_decline_run_gate :
    (∀ sym bars cfg i s,
        ((evalCandidate sym bars cfg i).isSome = true ↔
          isHammer cfg (bars.getD i default) = true ∧
          declineLen (bars.map Bar.close) (i - 1) ≥ cfg.minDeclineDays) ∧
        (evalCandidate sym bars cfg i = some s →
          s.decline_days = declineLen (bars.map Bar.close) (i - 1))) ∧
    detectSignals "X" hist5 defaultConfig = [] ∧
    detectSignals "X" hist6 defaultConfig = [sig6] ∧
    sig6.decline_days = 4 := by
  refine ⟨?_, detect_hist5, detect_hist6, rfl⟩
  intro sym bars cfg i s
  constructor
  · simp only [evalCandidate]
    split_ifs with h
    · simp only [Bool.and_eq_true, decide_eq_true_eq] at h
      exact iff_of_true rfl h
    · simp only [Bool.and_eq_true, decide_eq_true_eq] at h
      exact iff_of_false (by simp) h
  · simp only [evalCandidate]
    split_ifs with h
    · intro hs
      rw [← Option.some_inj.mp hs]
    · intro hs
      exact absurd hs (by simp)

/-- Witness for C2: the signal detected on `hist6` carries the decline
run length computed from its closes. -/
theorem C2_decline_run_gate_witness :
    sig6.decline_days = declineLen (hist6.map Bar.close) (5 - 1) :=
  (C2_decline_run_gate.1 "X" hist6 defaultConfig 5 sig6).2 hist6_eval5

/-- C3: every emitted signal comes from one of the last two bars of
the history (indices n−1 and n−2), evaluated independently; concrete
histories achieve zero, one, and two signals. -/
theorem C3_two_candidates :
    (∀ sym bars cfg s, s ∈ detectSignals sym bars cfg →
        ∃ i, i < bars.length ∧ bars.length ≤ i + 2 ∧
          evalCandidate sym bars cfg i = some s) ∧
    detectSignals "X" hist5 defaultConfig = [] ∧
    detectSignals "X" hist6 defaultConfig = [sig6] ∧
    detectSignals "X" hist7 defaultConfig = [sig7a, sig7b] := by
  refine ⟨?_, detect_hist5, detect_hist6, detect_hist7⟩
  intro sym bars cfg s hs
  rcases List.mem_filterMap.mp hs with ⟨i, hi, he⟩
  refine ⟨i, ?_, ?_, he⟩ <;>
  · rcases Nat.lt_or_ge bars.length 2 with h2 | h2
    · interval_cases h : bars.length <;> simp_all [candidateIdxs]
    · have : ¬ bars.length < 2 := by omega
      simp [candidateIdxs, Nat.le_of_lt, h2] at hi
      rcases hi with rfl | rfl <;> omega

/-- Witness for C3: the signal found on `hist6` originates from one of
the last two indices. -/
theorem C3_two_candidates_witness :
    ∃ i, i < hist6.length ∧ hist6.length ≤ i + 2 ∧
      evalCandidate "X" hist6 defaultConfig i = some sig6 :=
  C3_two_candidates.1 "X" hist6 defaultConfig sig6 (by simp [detect_hist6])

section Upsert

variable {α κ : Type} [DecidableEq κ]

/-- True iff some row of `table` has unique key `k` (the store's
UNIQUE KEY lookup used by an idempotent upsert). -/
def hasKey (key : α → κ) (table : List α) (k : κ) : Bool :=
  table.any (fun q => key q = k)

/-- Insert-if-absent upsert: a no-op when a row with the same unique
key already exists, otherwise the row is appended. This is the "skip"
conflict policy, the default for both the bar and the signal store
(spec §4.3, `DuplicateKeyOnUpsert` treated as a no-op in §7). -/
def upsertSkip (key : α → κ) (table : List α) (r : α) : List α :=
  if hasKey key table (key r) then table else table ++ [r]

/-- Upsert a batch of rows, left to right. -/
def upsertAll (key : α → κ) (table : List α) (rows : List α) : List α :=
  rows.foldl (upsertSkip key) table

theorem hasKey_append (key : α → κ) (t1 t2 : List α) (k : κ) :
    hasKey key (t1 ++ t2) k = (hasKey key t1 k || hasKey key t2 k) := by
  simp [hasKey]

theorem hasKey_iff_mem (key : α → κ) (t : List α) (k : κ) :
    hasKey key t k = true ↔ ∃ r ∈ t, key r = k := by
  simp [hasKey]

theorem hasKey_upsert_mono (key : α → κ) {t : List α} {k : κ} (r : α)
    (h : hasKey key t k = true) :
    hasKey key (upsertSkip key t r) k = true := by
  unfold upsertSkip
  split_ifs
  · exact h
  · simp [hasKey_append, h]

theorem hasKey_upsert_self (key : α → κ) (t : List α) (r : α) :
    hasKey key (upsertSkip key t r) (key r) = true := by
  unfold upsertSkip
  split_ifs with h
  · exact h
  · simp [hasKey_append, hasKey]

theorem hasKey_upsertAll_mono (key : α → κ) {t : List α} {k : κ}
    (rows : List α) (h : hasKey key t k = true) :
    hasKey key (upsertAll key t rows) k = true := by
  induction rows generalizing t with
  | nil => exact h
  | cons r rest ih => exact ih (hasKey_upsert_mono key r h)

theorem hasKey_upsertAll_of_mem (key : α → κ) {rows : List α} {r : α}
    (hr : r ∈ rows) (t : List α) :
    hasKey key (upsertAll key t rows) (key r) = true := by
  induction rows generalizing t with
  | nil => cases hr
  | cons q rest ih =>
    rcases List.mem_cons.mp hr with rfl | hr'
    · exact hasKey_upsertAll_mono key rest (hasKey_upsert_self key t r)
    · exact ih hr' _

theorem upsertAll_eq_of_covered (key : α → κ) {rows t : List α}
    (h : ∀ r ∈ rows, hasKey key t (key r) = true) :
    upsertAll key t rows = t := by
  induction rows with
  | nil => rfl
  | cons r rest ih =>
    have h1 : upsertSkip key t r = t := by
      unfold upsertSkip
      rw [if_pos (h r (List.mem_cons_self r rest))]
    show upsertAll key (upsertSkip key t r) rest = t
    rw [h1]
    exact ih (fun q hq => h q (List.mem_cons_of_mem r hq))

theorem upsertAll_idem (key : α → κ) (t rows : List α) :
    upsertAll key (upsertAll key t rows) rows = upsertAll key t rows :=
  upsertAll_eq_of_covered key
    (fun r hr => hasKey_upsertAll_of_mem key hr t)

theorem nodup_key_upsert (key : α → κ) {t : List α} (r : α)
    (h : (t.map key).Nodup) : ((upsertSkip key t r).map key).Nodup := by
  unfold upsertSkip
  split_ifs with hk
  · exact h
  · have : ¬ key r ∈ t.map key := by
      intro hmem
      rcases List.mem_map.mp hmem with ⟨q, hq, hqk⟩
      exact absurd ((hasKey_iff_mem key t (key r)).mpr ⟨q, hq, hqk⟩)
        (by simp [hk])
    simp [List.nodup_append, h, this]

theorem nodup_key_upsertAll (key : α → κ) {t : List α} (rows : List α)
    (h : (t.map key).Nodup) : ((upsertAll key t rows).map key).Nodup := by
  induction rows generalizing t with
  | nil => exact h
  | cons r rest ih => exact ih (nodup_key_upsert key r h)

end Upsert

/-- Unique key of a signal row: (symbol, signal_date, signal_type),
the `uk_symbol_signal_date` UNIQUE KEY of `signal_detections`. -/
def sigKey (s : Signal) : String × ℕ × String :=
  (s.symbol, s.signal_date, s.signal_type)

/-- Modelled from the spec: one detector run — for each symbol's bar
history, detect signals and upsert them into the signal store with the
"skip" (insert-if-absent) policy of spec §4.3; the underlying detector
implementation (`hammer_signal_detector.py`) is not in the snapshot. -/
def runDetector (cfg : DetectorConfig) (st : List Signal)
    (histories : List (String × List Bar)) : List Signal :=
  histories.foldl (fun t h => upsertAll sigKey t (detectSignals h.1 h.2 cfg)) st

theorem hasKey_runDetector_mono (cfg : DetectorConfig)
    {st : List Signal} {k : String × ℕ × String}
    (hs : List (String × List Bar)) (h : hasKey sigKey st k = true) :
    hasKey sigKey (runDetector cfg st hs) k = true := by
  induction hs generalizing st with
  | nil => exact h
  | cons h0 rest ih => exact ih (hasKey_upsertAll_mono sigKey _ h)

theorem runDetector_covers (cfg : DetectorConfig)
    {hs : List (String × List Bar)} {h : String × List Bar} {s : Signal}
    (hh : h ∈ hs) (hsig : s ∈ detectSignals h.1 h.2 cfg) (st : List Signal) :
    hasKey sigKey (runDetector cfg st hs) (sigKey s) = true := by
  induction hs generalizing st with
  | nil => cases hh
  | cons h0 rest ih =>
    rcases List.mem_cons.mp hh with rfl | hh'
    · exact hasKey_runDetector_mono cfg rest
        (hasKey_upsertAll_of_mem sigKey hsig st)
    · exact ih hh' _

theorem runDetector_eq_of_covered (cfg : DetectorConfig)
    {hs : List (String × List Bar)} {st : List Signal}
    (h : ∀ p ∈ hs, ∀ s ∈ detectSignals p.1 p.2 cfg,
      hasKey sigKey st (sigKey s) = true) :
    runDetector cfg st hs = st := by
  induction hs with
  | nil => rfl
  | cons h0 rest ih =>
    have h1 : upsertAll sigKey st (detectSignals h0.1 h0.2 cfg) = st :=
      upsertAll_eq_of_covered sigKey
        (fun s hsig => h h0 (List.mem_cons_self h0 rest) s hsig)
    show runDetector cfg (upsertAll sigKey st _) rest = st
    rw [h1]
    exact ih (fun p hp s hsig => h p (List.mem_cons_of_mem h0 hp) s hsig)

/-- C4: detection is idempotent — signal rows are keyed by
(symbol, signal_date, signal_type); a second detector run over the
same bar histories leaves the signal table exactly as after the first
run, and key-uniqueness of the table is preserved. -/
theorem C4_detection_idempotent :
    (∀ cfg st hs, runDetector cfg (runDetector cfg st hs) hs =
      runDetector cfg st hs) ∧
    (∀ cfg st hs, (st.map sigKey).Nodup →
      ((runDetector cfg st hs).map sigKey).Nodup) := by
  constructor
  · intro cfg st hs
    exact runDetector_eq_of_covered cfg
      (fun p hp s hsig => runDetector_covers cfg hp hsig st)
  · intro cfg st hs h
    induction hs generalizing st with
    | nil => exact h
    | cons h0 rest ih => exact ih _ (nodup_key_upsertAll sigKey _ h)

/-- Witness for C4: an initially key-unique store (here the run on
`hist6` starting from the empty table) stays key-unique. -/
theorem C4_detection_idempotent_witness :
    ((runDetector defaultConfig [] [("X", hist6)]).map sigKey).Nodup :=
  C4_detection_idempotent.2 defaultConfig [] [("X", hist6)] (by simp)

/-- One persisted row of the `stocks` table (`src/mysql/init.sql`):
symbol, date, OHLCV, with UNIQUE KEY (symbol, date). -/
structure BarRow where
  symbol : String
  date : ℕ
  open_ : ℚ
  high : ℚ
  low : ℚ
  close : ℚ
  volume : ℤ
deriving DecidableEq, Repr

/-- Unique key of a bar row: (symbol, date), the `unique_stock_date`
UNIQUE KEY of `stocks`. -/
def barKey (r : BarRow) : String × ℕ :=
  (r.symbol, r.date)

/-- Tag a fetched bar with its symbol, forming a store row. -/
def toRow (sym : String) (b : Bar) : BarRow :=
  { symbol := sym, date := b.date, open_ := b.open_, high := b.high,
    low := b.low, close := b.close, volume := b.volume }

/-- Modelled from the spec: the watermark resolver of
`incremental_stock_collector.py` (not in the snapshot) — the maximum
persisted bar date for a symbol, or `none` when the symbol has no
bars (spec §4.1). -/
def wm : List BarRow → String → Option ℕ
  | [], _ => none
  | r :: rs, sym =>
    let w := wm rs sym
    if r.symbol = sym then
      some (match w with
            | none => r.date
            | some x => max x r.date)
    else w

/-- Order on optional watermarks: `none` is below everything; a
present watermark may only grow. -/
def wmLe : Option ℕ → Option ℕ → Prop
  | none, _ => True
  | some _, none => False
  | some x, some y => x ≤ y

/-- Modelled from the spec: the differential fetch for one symbol —
from the source's available history `avail`, keep only bars up to the
target date and strictly after the watermark; when no watermark
exists, the full available history up to the target (spec §4.1). -/
def fetchRange (avail : List Bar) (st : List BarRow) (sym : String)
    (target : ℕ) : List Bar :=
  avail.filter (fun b =>
    decide (b.date ≤ target) &&
    match wm st sym with
    | none => true
    | some w => decide (w < b.date))

/-- Modelled from the spec: one ingestion step for one symbol — fetch
the missing range and upsert it into the bar store with the skip
policy (spec §4.1, Bar Store Writer in §2). -/
def stepFetch (source : String → List Bar) (target : ℕ)
    (st : List BarRow) (sym : String) : List BarRow :=
  upsertAll barKey st ((fetchRange (source sym) st sym target).map (toRow sym))

/-- Modelled from the spec: one full ingestion run over a symbol
list, each symbol processed in order against the evolving store. -/
def runFetch (source : String → List Bar) (target : ℕ)
    (st : List BarRow) (syms : List String) : List BarRow :=
  syms.foldl (stepFetch source target) st

theorem wmLe_refl (a : Option ℕ) : wmLe a a := by
  cases a <;> simp [wmLe]

theorem wmLe_trans {a b c : Option ℕ} (h1 : wmLe a b) (h2 : wmLe b c) :
    wmLe a c := by
  cases a <;> cases b <;> cases c <;> simp_all [wmLe] <;> omega

theorem wm_append (st : List BarRow) (r : BarRow) (sym : String) :
    wm (st ++ [r]) sym =
      if r.symbol = sym then
        some (match wm st sym with
              | none => r.date
              | some x => max x r.date)
      else wm st sym := by
  induction st with
  | nil => rfl
  | cons q rs ih =>
    show wm (q :: (rs ++ [r])) sym = _
    by_cases hq : q.symbol = sym <;> by_cases hr : r.symbol = sym <;>
      simp [wm, ih, hq, hr] <;> cases wm rs sym <;>
      simp [Nat.max_comm, Nat.max_left_comm, Nat.max_assoc]

theorem wmLe_append (st : List BarRow) (r : BarRow) (sym : String) :
    wmLe (wm st sym) (wm (st ++ [r]) sym) := by
  rw [wm_append]
  split_ifs with h
  · cases hw : wm st sym <;> simp [wmLe, Nat.le_max_left]
  · exact wmLe_refl _

theorem wmLe_upsert (st : List BarRow) (r : BarRow) (sym : String) :
    wmLe (wm st sym) (wm (upsertSkip barKey st r) sym) := by
  unfold upsertSkip
  split_ifs
  · exact wmLe_refl _
  · exact wmLe_append st r sym

theorem wmLe_upsertAll (st : List BarRow) (rows : List BarRow)
    (sym : String) : wmLe (wm st sym) (wm (upsertAll barKey st rows) sym) := by
  induction rows generalizing st with
  | nil => exact wmLe_refl _
  | cons r rest ih =>
    exact wmLe_trans (wmLe_upsert st r sym) (ih (upsertSkip barKey st r))

theorem date_le_wm_of_mem {st : List BarRow} {r : BarRow} {sym : String}
    (hr : r ∈ st) (hsym : r.symbol = sym) :
    ∃ w, wm st sym = some w ∧ r.date ≤ w := by
  induction st with
  | nil => cases hr
  | cons q rs ih =>
    rcases List.mem_cons.mp hr with rfl | hr'
    · cases hw : wm rs sym with
      | none => exact ⟨r.date, by simp [wm, hsym, hw], Nat.le_refl _⟩
      | some x =>
        exact ⟨max x r.date, by simp [wm, hsym, hw], Nat.le_max_right _ _⟩
    · rcases ih hr' with ⟨w, hw, hle⟩
      by_cases hq : q.symbol = sym
      · exact ⟨max w q.date, by simp [wm, hq, hw], le_trans hle (Nat.le_max_left _ _)⟩
      · exact ⟨w, by simp [wm, hq, hw], hle⟩

theorem barKey_toRow (sym : String) (b : Bar) :
    barKey (toRow sym b) = (sym, b.date) := rfl

theorem wmLe_some {w : ℕ} {o : Option ℕ} (h : wmLe (some w) o) :
    ∃ w2, o = some w2 ∧ w ≤ w2 := by
  cases o with
  | none => cases h
  | some x => exact ⟨x, rfl, h⟩

theorem wm_of_hasKey {st : List BarRow} {sym : String} {d : ℕ}
    (h : hasKey barKey st (sym, d) = true) :
    ∃ w, wm st sym = some w ∧ d ≤ w := by
  rcases (hasKey_iff_mem barKey st (sym, d)).mp h with ⟨r, hr, hk⟩
  have hsym : r.symbol = sym := congrArg Prod.fst hk
  have hdate : r.date = d := congrArg Prod.snd hk
  rcases date_le_wm_of_mem hr hsym with ⟨w, hw, hle⟩
  exact ⟨w, hw, hdate ▸ hle⟩

/-- The coverage invariant: every bar the source offers for `sym` up
to the target date lies at or below the symbol's watermark. -/
def covered (source : String → List Bar) (target : ℕ) (st : List BarRow)
    (sym : String) : Prop :=
  ∀ b ∈ source sym, b.date ≤ target →
    ∃ w, wm st sym = some w ∧ b.date ≤ w

theorem covered_upsertAll {source target st sym} (rows : List BarRow)
    (h : covered source target st sym) :
    covered source target (upsertAll barKey st rows) sym := by
  intro b hb hbt
  rcases h b hb hbt with ⟨w, hw, hle⟩
  rcases wmLe_some (hw ▸ wmLe_upsertAll st rows sym) with ⟨w2, hw2, hle2⟩
  exact ⟨w2, hw2, le_trans hle hle2⟩

theorem stepFetch_covers (source : String → List Bar) (target : ℕ)
    (st : List BarRow) (sym : String) :
    covered source target (stepFetch source target st sym) sym := by
  intro b hb hbt
  by_cases hmem : b ∈ fetchRange (source sym) st sym target
  · have hkey : hasKey barKey (stepFetch source target st sym)
        (sym, b.date) = true := by
      have : toRow sym b ∈ (fetchRange (source sym) st sym target).map (toRow sym) :=
        List.mem_map_of_mem _ hmem
      simpa [barKey_toRow] using
        hasKey_upsertAll_of_mem barKey this st
    exact wm_of_hasKey hkey
  · have hcond : ¬ ((decide (b.date ≤ target) &&
        match wm st sym with
        | none => true
        | some w => decide (w < b.date)) = true) := by
      intro hc
      exact hmem (List.mem_filter.mpr ⟨hb, hc⟩)
    cases hw : wm st sym with
    | none => exact absurd (by simp [hw, hbt]) hcond
    | some w =>
      have hnotlt : ¬ w < b.date := by
        intro hlt
        exact hcond (by simp [hw, hbt, hlt])
      have hle : b.date ≤ w := Nat.le_of_not_lt hnotlt
      rcases wmLe_some (hw ▸ wmLe_upsertAll st _ sym) with ⟨w2, hw2, hle2⟩
      exact ⟨w2, hw2, le_trans hle hle2⟩

theorem covered_stepFetch_other {source target st sym} (sym2 : String)
    (h : covered source target st sym) :
    covered source target (stepFetch source target st sym2) sym :=
  covered_upsertAll _ h

theorem covered_runFetch_mono {source target st sym} (syms : List String)
    (h : covered source target st sym) :
    covered source target (runFetch source target st syms) sym := by
  induction syms generalizing st with
  | nil => exact h
  | cons s rest ih => exact ih (covered_stepFetch_other s h)

theorem runFetch_covers (source : String → List Bar) (target : ℕ)
    (st : List BarRow) {syms : List String} {sym : String}
    (hsym : sym ∈ syms) :
    covered source target (runFetch source target st syms) sym := by
  induction syms generalizing st with
  | nil => cases hsym
  | cons s rest ih =>
    rcases List.mem_cons.mp hsym with rfl | h'
    · exact covered_runFetch_mono rest (stepFetch_covers source target st sym)
    · exact ih (stepFetch source target st s) h'

theorem fetchRange_eq_nil_of_covered {source : String → List Bar}
    {target : ℕ} {st : List BarRow} {sym : String}
    (h : covered source target st sym) :
    fetchRange (source sym) st sym target = [] := by
  refine List.filter_eq_nil_iff.mpr ?_
  intro b hb
  by_cases hbt : b.date ≤ target
  · rcases h b hb hbt with ⟨w, hw, hle⟩
    simp [hw, Nat.not_lt_of_le hle]
  · simp [hbt]

theorem stepFetch_eq_of_covered {source target st sym}
    (h : covered source target st sym) :
    stepFetch source target st sym = st := by
  unfold stepFetch
  rw [fetchRange_eq_nil_of_covered h]
  rfl

theorem runFetch_eq_of_covered {source target st} {syms : List String}
    (h : ∀ sym ∈ syms, covered source target st sym) :
    runFetch source target st syms = st := by
  induction syms with
  | nil => rfl
  | cons s rest ih =>
    have h1 : stepFetch source target st s = st :=
      stepFetch_eq_of_covered (h s (List.mem_cons_self s rest))
    show runFetch source target (stepFetch source target st s) rest = st
    rw [h1]
    exact ih (fun sym hsym => h sym (List.mem_cons_of_mem s hsym))

/-- C5: ingestion is idempotent — re-running the fetcher with the same
target date against the same source leaves the bar store (hence its
row count) unchanged, and key-uniqueness on (symbol, date) is
preserved by every run. -/
theorem C5_ingestion_idempotent :
    (∀ source target st syms,
      runFetch source target (runFetch source target st syms) syms =
        runFetch source target st syms) ∧
    (∀ source target st syms,
      (runFetch source target (runFetch source target st syms) syms).length =
        (runFetch source target st syms).length) ∧
    (∀ source target st syms, ((st.map barKey).Nodup) →
      ((runFetch source target st syms).map barKey).Nodup) := by
  have h1 : ∀ (source : String → List Bar) (target : ℕ) st syms,
      runFetch source target (runFetch source target st syms) syms =
        runFetch source target st syms := by
    intro source target st syms
    exact runFetch_eq_of_covered
      (fun sym hsym => runFetch_covers source target st hsym)
  refine ⟨h1, fun source target st syms => congrArg List.length (h1 _ _ _ _), ?_⟩
  intro source target st syms h
  induction syms generalizing st with
  | nil => exact h
  | cons s rest ih => exact ih _ (nodup_key_upsertAll barKey _ h)

/-- Witness for C5: a run starting from the empty (key-unique) store
keeps the bar table key-unique. -/
theorem C5_ingestion_idempotent_witness :
    ((runFetch (fun _ => [flatBar 5 100]) 10 [] ["A"]).map barKey).Nodup :=
  C5_ingestion_idempotent.2.2 (fun _ => [flatBar 5 100]) 10 [] ["A"] (by simp)

/-- C6: every fetched bar lies within the requested window — at or
before the target date, strictly after the watermark when one exists,
and never at a (symbol, date) key already persisted; with no
watermark the full available history up to the target is fetched; and
the watermark never decreases across a run. -/
theorem C6_watermark_monotone :
    (∀ (source : String → List Bar) target st sym b,
        b ∈ fetchRange (source sym) st sym target →
          b.date ≤ target ∧ hasKey barKey st (sym, b.date) = false ∧
          ∀ w, wm st sym = some w → w < b.date) ∧
    (∀ (source : String → List Bar) target st sym, wm st sym = none →
        fetchRange (source sym) st sym target =
          (source sym).filter (fun b => decide (b.date ≤ target))) ∧
    (∀ (source : String → List Bar) target st syms sym,
        wmLe (wm st sym) (wm (runFetch source target st syms) sym)) := by
  refine ⟨?_, ?_, ?_⟩
  · intro source target st sym b hb
    have hc := List.of_mem_filter hb
    simp only [Bool.and_eq_true, decide_eq_true_eq] at hc
    obtain ⟨hbt, hrest⟩ := hc
    refine ⟨hbt, ?_, ?_⟩
    · by_contra hkey
      have hkey' : hasKey barKey st (sym, b.date) = true := by
        cases h' : hasKey barKey st (sym, b.date)
        · exact absurd h' hkey
        · rfl
      rcases wm_of_hasKey hkey' with ⟨w, hw, hle⟩
      rw [hw] at hrest
      simp only [decide_eq_true_eq] at hrest
      omega
    · intro w hw
      rw [hw] at hrest
      simpa using hrest
  · intro source target st sym hw
    apply List.filter_congr
    intro b hb
    rw [hw]
    simp
  · intro source target st syms sym
    induction syms generalizing st with
    | nil => exact wmLe_refl _
    | cons s rest ih =>
      exact wmLe_trans (wmLe_upsertAll st _ sym) (ih (stepFetch source target st s))

/-- Witness for C6: a concrete fetched bar on an empty store is inside
the window and not previously persisted. -/
theorem C6_watermark_monotone_witness :
    (5 : ℕ) ≤ 10 ∧ hasKey barKey [] ("A", 5) = false ∧
      ∀ w, wm [] "A" = some w → w < 5 :=
  by
    have h := C6_watermark_monotone.1 (fun _ => [flatBar 5 100]) 10 [] "A"
      (flatBar 5 100) (by decide)
    simpa [flatBar, mkBar] using h

/-- End-of-run summary of one ingestion run (spec §4.1: counts of
symbols processed, bars inserted, and the failed-symbol list retained
for diagnostics). -/
structure RunSummary where
  store : List BarRow
  processed : ℕ
  inserted : ℕ
  failed : List String
deriving DecidableEq, Repr

/-- Modelled from the spec: the per-symbol loop of
`incremental_stock_collector.py` (not in the snapshot) with partial
failure isolation (spec §4.1, §7): a failing symbol is recorded and
skipped, a succeeding symbol has its missing range fetched and
upserted, and the run always continues to the next symbol. -/
def runCollect (source : String → Except String (List Bar)) (target : ℕ)
    (st : List BarRow) : List String → RunSummary
  | [] => { store := st, processed := 0, inserted := 0, failed := [] }
  | sym :: rest =>
    match source sym with
    | .error _ =>
      let r := runCollect source target st rest
      { r with failed := sym :: r.failed }
    | .ok avail =>
      let st1 := upsertAll barKey st
        ((fetchRange avail st sym target).map (toRow sym))
      let r := runCollect source target st1 rest
      { r with processed := r.processed + 1,
               inserted := r.inserted + (st1.length - st.length) }

/-- Modelled from the spec: process exit status of a run — success
(0) whenever the run completes, including with per-symbol failures;
nonzero only when the source was unreachable before any symbol
succeeded (spec §4.1, §6: "Exit code 0 on success (including partial
per-symbol failures)"). -/
def exitStatus (r : RunSummary) : ℕ :=
  if r.processed = 0 ∧ r.failed ≠ [] then 1 else 0

/-- C7: per-symbol fetch failures are isolated — with X failing and Y,
Z succeeding, the run continues past X, the final store and inserted
count are exactly those of a run over Y and Z alone, X is the reported
failed list, and the exit status is success. -/
theorem C7_partial_failure_isolation
    (source : String → Except String (List Bar)) (target : ℕ)
    (st : List BarRow) (X Y Z : String) (e : String) (ys zs : List Bar)
    (hX : source X = .error e) (hY : source Y = .ok ys)
    (hZ : source Z = .ok zs) :
    (runCollect source target st [X, Y, Z]).failed = [X] ∧
    (runCollect source target st [X, Y, Z]).store =
      (runCollect source target st [Y, Z]).store ∧
    (runCollect source target st [X, Y, Z]).processed = 2 ∧
    (runCollect source target st [X, Y, Z]).inserted =
      (runCollect source target st [Y, Z]).inserted ∧
    exitStatus (runCollect source target st [X, Y, Z]) = 0 := by
  refine ⟨?_, ?_, ?_, ?_, ?_⟩ <;>
    simp [runCollect, exitStatus, hX, hY, hZ]

/-- Witness for C7 at a concrete source where only "X" fails. -/
theorem C7_partial_failure_isolation_witness :
    (runCollect
        (fun s => if s = "X" then .error "down" else .ok [flatBar 5 100])
        10 [] ["X", "Y", "Z"]).failed = ["X"] ∧
    (runCollect
        (fun s => if s = "X" then .error "down" else .ok [flatBar 5 100])
        10 [] ["X", "Y", "Z"]).store =
      (runCollect
        (fun s => if s = "X" then .error "down" else .ok [flatBar 5 100])
        10 [] ["Y", "Z"]).store ∧
    (runCollect
        (fun s => if s = "X" then .error "down" else .ok [flatBar 5 100])
        10 [] ["X", "Y", "Z"]).processed = 2 ∧
    (runCollect
        (fun s => if s = "X" then .error "down" else .ok [flatBar 5 100])
        10 [] ["X", "Y", "Z"]).inserted =
      (runCollect
        (fun s => if s = "X" then .error "down" else .ok [flatBar 5 100])
        10 [] ["Y", "Z"]).inserted ∧
    exitStatus (runCollect
        (fun s => if s = "X" then .error "down" else .ok [flatBar 5 100])
        10 [] ["X", "Y", "Z"]) = 0 :=
  C7_partial_failure_isolation _ 10 [] "X" "Y" "Z" "down"
    [flatBar 5 100] [flatBar 5 100] (by simp) (by simp) (by simp)

/-- The three import modes of `stock_master_importer.py` as dispatched
by `src/import_stock_master.sh`. -/
inductive ImportMode
  | skip
  | update
  | replace
deriving DecidableEq, Repr

/-- Outcome of the importer CLI dispatch: either the script proceeds
to invoke the importer with a validated mode, or it exits with a code
before any import work or store write happens. -/
inductive CliOutcome
  | invoked (m : ImportMode)
  | exited (code : ℕ)
deriving DecidableEq, Repr

/-- Embedding of `src/import_stock_master.sh`: `MODE=${1:-skip}`
substitutes the default "skip" when the first argument is unset OR
null (empty) — bash's `:-` expansion; the `case $MODE in` dispatch
lets skip/update/replace fall through to the importer invocation and
makes any other string `exit 1` before the importer runs. -/
def importStockMasterCli (arg : Option String) : CliOutcome :=
  let mode := match arg with
              | none => "skip"
              | some s => if s = "" then "skip" else s
  if mode = "skip" then .invoked .skip
  else if mode = "update" then .invoked .update
  else if mode = "replace" then .invoked .replace
  else .exited 1

/-- Counterexample to C8 as stated: the empty string is a mode
argument other than skip/update/replace, yet the script does not exit
with a nonzero code — bash's `${1:-skip}` null-defaults it to skip, so
the importer is invoked. -/
theorem C8_importer_modes_counterexample :
    importStockMasterCli (some "") = .invoked .skip := by
  simp [importStockMasterCli]

/-- C8 (amended): the importer CLI accepts exactly skip/update/replace;
it defaults to skip when the mode argument is missing or empty (the
bash null-default), and it exits with the nonzero code 1 before
invoking the importer on every other nonempty mode string. -/
theorem C8_importer_modes_amended :
    importStockMasterCli none = .invoked .skip ∧
    importStockMasterCli (some "") = .invoked .skip ∧
    (∀ s m, importStockMasterCli (some s) = .invoked m ↔
      (s = "skip" ∧ m = .skip) ∨ (s = "update" ∧ m = .update) ∨
      (s = "replace" ∧ m = .replace) ∨ (s = "" ∧ m = .skip)) ∧
    (∀ s, s ≠ "" → s ≠ "skip" → s ≠ "update" → s ≠ "replace" →
      importStockMasterCli (some s) = .exited 1 ∧ (1 : ℕ) ≠ 0) := by
  refine ⟨by simp [importStockMasterCli], by simp [importStockMasterCli],
    ?_, ?_⟩
  · intro s m
    by_cases h0 : s = ""
    · simp [importStockMasterCli, h0, eq_comm]
    · by_cases h1 : s = "skip"
      · simp [importStockMasterCli, h0, h1, eq_comm]
      · by_cases h2 : s = "update"
        · simp [importStockMasterCli, h0, h1, h2, eq_comm]
        · by_cases h3 : s = "replace"
          · simp [importStockMasterCli, h0, h1, h2, h3, eq_comm]
          · simp [importStockMasterCli, h0, h1, h2, h3]
  · intro s h0 h1 h2 h3
    exact ⟨by simp [importStockMasterCli, h0, h1, h2, h3], by omega⟩

/-- Witness for the amended C8: an invalid nonempty mode string exits
with code 1 without reaching the importer. -/
theorem C8_importer_modes_amended_witness :
    importStockMasterCli (some "delete") = .exited 1 ∧ (1 : ℕ) ≠ 0 :=
  C8_importer_modes_amended.2.2.2 "delete" (by decide) (by decide)
    (by decide) (by decide)

/-- One entry of the moving-average settings
(`MovingAverageSettings` in `src/frontend/src/types/stockData.ts`):
window length, enabled flag, and display metadata. -/
structure MAConfig where
  period : ℕ
  enabled : Bool
  color : String
  name : String
deriving DecidableEq, Repr

/-- The three moving-average slots of the frontend settings. -/
structure MovingAverageSettings where
  ma1 : MAConfig
  ma2 : MAConfig
  ma3 : MAConfig
deriving DecidableEq, Repr

/-- `defaultMASettings` from the source: MA5 / MA25 / MA75, all
enabled. -/
def defaultMASettings : MovingAverageSettings :=
  { ma1 := { period := 5, enabled := true, color := "#FF6B35", name := "MA5" },
    ma2 := { period := 25, enabled := true, color := "#4ECDC4", name := "MA25" },
    ma3 := { period := 75, enabled := true, color := "#9C27B0", name := "MA75" } }

/-- One frontend bar (`StockData` in the source): ISO date strings are
modelled as day numbers; the optional `ma1`/`ma2`/`ma3` fields are
`none` when unset. -/
structure StockData where
  date : ℕ
  open_ : ℚ
  high : ℚ
  low : ℚ
  close : ℚ
  volume : ℤ
  ma1 : Option ℤ := none
  ma2 : Option ℤ := none
  ma3 : Option ℤ := none
deriving DecidableEq, Repr, Inhabited

/-- JavaScript's `Math.round`: round half toward positive infinity. -/
def jsRound (q : ℚ) : ℤ := ⌊q + 1 / 2⌋

/-- The source's MA value at index `i` for window `p`: the closes of
`data.slice(i − p + 1, i + 1)` summed, divided by `p`, and passed to
`Math.round`. -/
def maValue (data : List StockData) (p i : ℕ) : ℤ :=
  jsRound ((((data.drop (i + 1 - p)).take p).map StockData.close).sum / (p : ℚ))

/-- One step of the source's `data.map((item, index) => ...)` body:
each enabled `ma_k` whose window fits (`index ≥ period − 1`) is set to
the rounded window mean; every other field is left unchanged. The
source mutates `item` in place; since `close` is never written, the
closes it reads from the partially-updated array equal the input's. -/
def applyMA (data : List StockData) (s : MovingAverageSettings) (i : ℕ)
    (item : StockData) : StockData :=
  let item1 := if s.ma1.enabled && decide (i + 1 ≥ s.ma1.period) then
    { item with ma1 := some (maValue data s.ma1.period i) } else item
  let item2 := if s.ma2.enabled && decide (i + 1 ≥ s.ma2.period) then
    { item1 with ma2 := some (maValue data s.ma2.period i) } else item1
  if s.ma3.enabled && decide (i + 1 ≥ s.ma3.period) then
    { item2 with ma3 := some (maValue data s.ma3.period i) } else item2

/-- Index-carrying recursion implementing the source's indexed map. -/
def calculateMAFrom (data : List StockData) (s : MovingAverageSettings) :
    ℕ → List StockData → List StockData
  | _, [] => []
  | i, item :: rest => applyMA data s i item :: calculateMAFrom data s (i + 1) rest

/-- Embedding of `calculateMovingAverages` from
`src/frontend/src/types/stockData.ts`. -/
def calculateMovingAverages (data : List StockData)
    (s : MovingAverageSettings) : List StockData :=
  calculateMAFrom data s 0 data

theorem calculateMAFrom_length (data : List StockData)
    (s : MovingAverageSettings) (l : List StockData) (i : ℕ) :
    (calculateMAFrom data s i l).length = l.length := by
  induction l generalizing i with
  | nil => rfl
  | cons a rest ih => simp [calculateMAFrom, ih]

theorem calculateMAFrom_getD (data : List StockData)
    (s : MovingAverageSettings) (l : List StockData) (i j : ℕ)
    (d : StockData) (hj : j < l.length) :
    (calculateMAFrom data s i l).getD j d =
      applyMA data s (i + j) (l.getD j d) := by
  induction l generalizing i j with
  | nil => cases hj
  | cons a rest ih =>
    cases j with
    | zero => simp [calculateMAFrom]
    | succ j' =>
      have hj' : j' < rest.length := by simpa using hj
      have := ih (i + 1) j' hj'
      simpa [calculateMAFrom, Nat.add_assoc, Nat.add_comm, Nat.add_left_comm]
        using this

theorem applyMA_date (data : List StockData) (s : MovingAverageSettings)
    (i : ℕ) (item : StockData) : (applyMA data s i item).date = item.date := by
  unfold applyMA
  split_ifs <;> rfl

theorem applyMA_open (data : List StockData) (s : MovingAverageSettings)
    (i : ℕ) (item : StockData) : (applyMA data s i item).open_ = item.open_ := by
  unfold applyMA
  split_ifs <;> rfl

theorem applyMA_high (data : List StockData) (s : MovingAverageSettings)
    (i : ℕ) (item : StockData) : (applyMA data s i item).high = item.high := by
  unfold applyMA
  split_ifs <;> rfl

theorem applyMA_low (data : List StockData) (s : MovingAverageSettings)
    (i : ℕ) (item : StockData) : (applyMA data s i item).low = item.low := by
  unfold applyMA
  split_ifs <;> rfl

theorem applyMA_close (data : List StockData) (s : MovingAverageSettings)
    (i : ℕ) (item : StockData) : (applyMA data s i item).close = item.close := by
  unfold applyMA
  split_ifs <;> rfl

theorem applyMA_volume (data : List StockData) (s : MovingAverageSettings)
    (i : ℕ) (item : StockData) : (applyMA data s i item).volume = item.volume := by
  unfold applyMA
  split_ifs <;> rfl

theorem applyMA_ma1 (data : List StockData) (s : MovingAverageSettings)
    (i : ℕ) (item : StockData) :
    (applyMA data s i item).ma1 =
      if s.ma1.enabled && decide (i + 1 ≥ s.ma1.period) then
        some (maValue data s.ma1.period i) else item.ma1 := by
  unfold applyMA
  split_ifs <;> rfl

theorem applyMA_ma2 (data : List StockData) (s : MovingAverageSettings)
    (i : ℕ) (item : StockData) :
    (applyMA data s i item).ma2 =
      if s.ma2.enabled && decide (i + 1 ≥ s.ma2.period) then
        some (maValue data s.ma2.period i) else item.ma2 := by
  unfold applyMA
  split_ifs <;> rfl

theorem applyMA_ma3 (data : List StockData) (s : MovingAverageSettings)
    (i : ℕ) (item : StockData) :
    (applyMA data s i item).ma3 =
      if s.ma3.enabled && decide (i + 1 ≥ s.ma3.period) then
        some (maValue data s.ma3.period i) else item.ma3 := by
  unfold applyMA
  split_ifs <;> rfl

theorem maGuard_iff (e : Bool) (p i : ℕ) :
    ((e && decide (i + 1 ≥ p)) = true) ↔ (e = true ∧ p - 1 ≤ i) := by
  simp only [Bool.and_eq_true, decide_eq_true_eq]
  constructor
  · rintro ⟨he, hp⟩
    exact ⟨he, by omega⟩
  · rintro ⟨he, hp⟩
    exact ⟨he, by omega⟩

/-- C9: on bars whose MA fields are all unset, `calculateMovingAverages`
preserves length and every OHLCV field, and sets `ma_k` at index `i`
iff `ma_k` is enabled and `i ≥ period_k − 1`, in which case `ma_k` is
the mean of the closes at indices `i − period_k + 1 … i`, rounded as
by `Math.round`. -/
theorem C9_calculateMovingAverages (data : List StockData)
    (s : MovingAverageSettings)
    (h : ∀ d ∈ data, d.ma1 = none ∧ d.ma2 = none ∧ d.ma3 = none) :
    (calculateMovingAverages data s).length = data.length ∧
    ∀ i, i < data.length →
      ((calculateMovingAverages data s).getD i default).date =
        (data.getD i default).date ∧
      ((calculateMovingAverages data s).getD i default).open_ =
        (data.getD i default).open_ ∧
      ((calculateMovingAverages data s).getD i default).high =
        (data.getD i default).high ∧
      ((calculateMovingAverages data s).getD i default).low =
        (data.getD i default).low ∧
      ((calculateMovingAverages data s).getD i default).close =
        (data.getD i default).close ∧
      ((calculateMovingAverages data s).getD i default).volume =
        (data.getD i default).volume ∧
      ((calculateMovingAverages data s).getD i default).ma1 =
        (if s.ma1.enabled = true ∧ s.ma1.period - 1 ≤ i then
          some (maValue data s.ma1.period i) else none) ∧
      ((calculateMovingAverages data s).getD i default).ma2 =
        (if s.ma2.enabled = true ∧ s.ma2.period - 1 ≤ i then
          some (maValue data s.ma2.period i) else none) ∧
      ((calculateMovingAverages data s).getD i default).ma3 =
        (if s.ma3.enabled = true ∧ s.ma3.period - 1 ≤ i then
          some (maValue data s.ma3.period i) else none) := by
  refine ⟨calculateMAFrom_length data s data 0, ?_⟩
  intro i hi
  have hout : (calculateMovingAverages data s).getD i default =
      applyMA data s i (data.getD i default) := by
    have := calculateMAFrom_getD data s data 0 i default hi
    simpa [calculateMovingAverages] using this
  have hmem : data.getD i default ∈ data := by
    rw [List.getD_eq_getElem data default hi]
    exact List.getElem_mem hi
  obtain ⟨h1, h2, h3⟩ := h _ hmem
  rw [hout]
  refine ⟨applyMA_date data s i _, applyMA_open data s i _,
    applyMA_high data s i _, applyMA_low data s i _,
    applyMA_close data s i _, applyMA_volume data s i _, ?_, ?_, ?_⟩
  · rw [applyMA_ma1, h1, if_congr (maGuard_iff _ _ _) rfl rfl]
  · rw [applyMA_ma2, h2, if_congr (maGuard_iff _ _ _) rfl rfl]
  · rw [applyMA_ma3, h3, if_congr (maGuard_iff _ _ _) rfl rfl]

/-- A bar with all four prices equal to `c` and no MA fields set. -/
def mkSD (d : ℕ) (c : ℚ) : StockData :=
  { date := d, open_ := c, high := c, low := c, close := c, volume := 0 }

/-- Two-bar sample input for the moving-average witness. -/
def sdData2 : List StockData := [mkSD 0 1, mkSD 1 2]

/-- Settings enabling only a 2-day MA1. -/
def sOnly2 : MovingAverageSettings :=
  { ma1 := { period := 2, enabled := true, color := "", name := "" },
    ma2 := { period := 2, enabled := false, color := "", name := "" },
    ma3 := { period := 2, enabled := false, color := "", name := "" } }

/-- Witness for C9 on a concrete two-bar input. -/
theorem C9_calculateMovingAverages_witness :
    (calculateMovingAverages sdData2 sOnly2).length = sdData2.length ∧
    ((calculateMovingAverages sdData2 sOnly2).getD 1 default).ma1 =
      (if sOnly2.ma1.enabled = true ∧ sOnly2.ma1.period - 1 ≤ 1 then
        some (maValue sdData2 sOnly2.ma1.period 1) else none) :=
  ⟨(C9_calculateMovingAverages sdData2 sOnly2 (by decide)).1,
   (((C9_calculateMovingAverages sdData2 sOnly2 (by decide)).2 1
      (by decide)).2.2.2.2.2.2.1)⟩

/-- Runtime inputs a frontend could consult while generating data: the
`Math.random` stream and the current clock. The seeded generator in
`src/frontend/src/types/stockData.ts` reads neither — it replaced an
earlier version that used both. -/
structure Ambient where
  mathRandom : ℕ → ℚ
  today : ℕ

/-- The source's linear-congruential step:
`randomSeed = (randomSeed * 9301 + 49297) % 233280`. -/
def seededNext (s : ℕ) : ℕ := (s * 9301 + 49297) % 233280

/-- The source's seed: the sum of the character codes of `stockCode`
(`charCodeAt`; stock codes are ASCII so UTF-16 units equal code
points). -/
def seedOf (stockCode : String) : ℕ :=
  (stockCode.data.map Char.toNat).sum

/-- Day number (days since the Unix epoch) of the source's fixed base
date 2024-12-01. -/
def baseDateDay : ℕ := 20059

/-- The source's 180-iteration loop, with the pseudo-random state and
current price threaded explicitly. At the step producing JS index `i`
(dates run from `baseDateDay − 179` up to `baseDateDay`), the source
draws, in order: the price change, the high offset, the low offset and
the volume; `open` and `close` both equal the updated current price
before clamping into `[low, high]`. -/
def genLoop (st : ℕ) (price : ℚ) : ℕ → List StockData
  | 0 => []
  | n + 1 =>
    let st1 := seededNext st
    let change := ((st1 : ℚ) / 233280 - 1 / 2) * (8 / 100)
    let p := price * (1 + change)
    let st2 := seededNext st1
    let volatilityRange := p * (25 / 1000)
    let high := p + ((st2 : ℚ) / 233280) * volatilityRange
    let st3 := seededNext st2
    let low := p - ((st3 : ℚ) / 233280) * volatilityRange
    let st4 := seededNext st3
    let volume := ⌊(100000 : ℚ) + ((st4 : ℚ) / 233280) * 500000⌋
    let adjustedOpen := min (max p low) high
    let adjustedClose := min (max p low) high
    { date := baseDateDay - n,
      open_ := (jsRound adjustedOpen : ℚ),
      high := (jsRound high : ℚ),
      low := (jsRound low : ℚ),
      close := (jsRound adjustedClose : ℚ),
      volume := volume } :: genLoop st4 p n

/-- Embedding of `generateSampleData` from
`src/frontend/src/types/stockData.ts`: seed from the stock code, one
pseudo-random draw for the base price, 180 generated bars from the
fixed base date, then moving averages. The `Ambient` argument stands
for the runtime's volatile inputs, which this implementation ignores. -/
def generateSampleData (stockCode : String)
    (maSettings : MovingAverageSettings) (amb : Ambient) : List StockData :=
  let seed := seedOf stockCode
  let st1 := seededNext seed
  let basePrice := 1000 + ((st1 : ℚ) / 233280) * 2000
  calculateMovingAverages (genLoop st1 basePrice 180) maSettings

theorem genLoop_length : ∀ (n : ℕ) (st : ℕ) (p : ℚ),
    (genLoop st p n).length = n := by
  intro n
  induction n with
  | zero => intro st p; rfl
  | succ n ih =>
    intro st p
    simp [genLoop, ih]

theorem genLoop_date : ∀ (n : ℕ) (st : ℕ) (p : ℚ) (i : ℕ), i < n →
    ((genLoop st p n).getD i default).date = baseDateDay - (n - 1 - i) := by
  intro n
  induction n with
  | zero => intro st p i hi; exact absurd hi (Nat.not_lt_zero i)
  | succ n ih =>
    intro st p i hi
    cases i with
    | zero => simp [genLoop]
    | succ j =>
      have hj : j < n := by omega
      rw [show n + 1 - 1 - (j + 1) = n - 1 - j from by omega]
      simpa [genLoop] using ih _ _ j hj

/-- C10: `generateSampleData` is deterministic — its result does not
depend on the runtime's volatile inputs, it is a function of the
character-code seed of the stock code alone (for fixed settings), and
it always yields 180 bars dated from the fixed base date 2024-12-01
backwards. -/
theorem C10_generateSampleData_deterministic :
    (∀ (stockCode : String) (s : MovingAverageSettings) (a1 a2 : Ambient),
        generateSampleData stockCode s a1 = generateSampleData stockCode s a2) ∧
    (∀ (c1 c2 : String) (s : MovingAverageSettings) (a1 a2 : Ambient),
        seedOf c1 = seedOf c2 →
        generateSampleData c1 s a1 = generateSampleData c2 s a2) ∧
    (∀ (stockCode : String) (s : MovingAverageSettings) (a : Ambient),
        (generateSampleData stockCode s a).length = 180) ∧
    (∀ (stockCode : String) (s : MovingAverageSettings) (a : Ambient)
        (i : ℕ), i < 180 →
        ((generateSampleData stockCode s a).getD i default).date =
          baseDateDay - 179 + i) := by
  refine ⟨fun _ _ _ _ => rfl, ?_, ?_, ?_⟩
  · intro c1 c2 s a1 a2 h
    simp only [generateSampleData]
    rw [h]
  · intro stockCode s a
    simp [generateSampleData, calculateMovingAverages,
      calculateMAFrom_length, genLoop_length]
  · intro stockCode s a i hi
    simp only [generateSampleData, calculateMovingAverages]
    rw [calculateMAFrom_getD _ _ _ 0 i default
      (by rw [genLoop_length]; exact hi)]
    rw [applyMA_date, genLoop_date 180 _ _ i hi]
    simp only [baseDateDay]
    omega

/-- Witness for C10: codes "AB" and "BA" have equal seeds and produce
identical data under different ambient inputs; the first generated bar
is dated 179 days before the base date. -/
theorem C10_generateSampleData_deterministic_witness :
    generateSampleData "AB" defaultMASettings ⟨fun _ => 0, 0⟩ =
      generateSampleData "BA" defaultMASettings ⟨fun _ => 1, 7⟩ ∧
    ((generateSampleData "72" defaultMASettings
        ⟨fun _ => 0, 0⟩).getD 0 default).date = baseDateDay - 179 + 0 :=
  ⟨C10_generateSampleData_deterministic.2.1 "AB" "BA" defaultMASettings
      ⟨fun _ => 0, 0⟩ ⟨fun _ => 1, 7⟩ (by decide),
   C10_generateSampleData_deterministic.2.2.2 "72" defaultMASettings
      ⟨fun _ => 0, 0⟩ 0 (by decide)⟩
